import Mathlib

/-!
Verification of the integer power library of NumbersAndCalculus
(`src/include/number_calc/integral_power_functions/`).

The C++ templates are embedded shallowly: a machine integer type `T` is a
descriptor `IntType` (bit width and signedness), machine values are `Int`s,
and every operation that can overflow reduces its result into the type's
range by two's-complement wrapping (`IntType.wrap`), which is the observed
behaviour of the compiled code (`-fwrapv` semantics; signed overflow is UB
in ISO C++ but the repository's own tests rely on wrapping).  C++ `/` and
`%` on possibly negative operands are `Int.tdiv` / `Int.tmod` (truncation
toward zero); the arithmetic right shift `>>= 1` of a signed exponent is
`Int.fdiv · 2`; `x & 1` is `x % 2` (`Int.emod`, the low bit in two's
complement).  Functions that can throw return `Option` (none = throw).
-/

set_option maxHeartbeats 4000000
set_option maxRecDepth 16384

namespace NumberCalc

/-- Descriptor of a fixed-width two's-complement machine integer type:
bit width and signedness.  The C++ templates are parameterized over such
types; the repository instantiates them at the eight standard widths plus
the 128-bit extended pair. -/
structure IntType where
  bits : Nat
  signed : Bool
deriving DecidableEq

namespace IntType

/-- Number of distinct values of the type, `2 ^ bits`. -/
def modulus (t : IntType) : Int := 2 ^ t.bits

/-- `std::numeric_limits<T>::max()`. -/
def maxv (t : IntType) : Int :=
  if t.signed = true then 2 ^ (t.bits - 1) - 1 else 2 ^ t.bits - 1

/-- `std::numeric_limits<T>::min()`. -/
def minv (t : IntType) : Int :=
  if t.signed = true then -(2 ^ (t.bits - 1)) else 0

/-- Reduce an unbounded integer into the representable range of `t` by
two's-complement wrapping. -/
def wrap (t : IntType) (x : Int) : Int :=
  let m := x % t.modulus
  if t.signed = true ∧ 2 ^ (t.bits - 1) ≤ m then m - t.modulus else m

/-- Machine multiplication in `t`: multiply, then wrap. -/
def mul (t : IntType) (a b : Int) : Int := t.wrap (a * b)

/-- Machine left shift `a << e` in `t` (for a non-negative shift count). -/
def shl (t : IntType) (a e : Int) : Int := t.wrap (a * 2 ^ e.toNat)

end IntType

/-- `int8_t`. -/
def int8_t : IntType := ⟨8, true⟩

/-- `uint8_t`. -/
def uint8_t : IntType := ⟨8, false⟩

/-- `int16_t`. -/
def int16_t : IntType := ⟨16, true⟩

/-- `uint16_t`. -/
def uint16_t : IntType := ⟨16, false⟩

/-- `int32_t`. -/
def int32_t : IntType := ⟨32, true⟩

/-- `uint32_t`. -/
def uint32_t : IntType := ⟨32, false⟩

/-- `int64_t`. -/
def int64_t : IntType := ⟨64, true⟩

/-- `uint64_t`. -/
def uint64_t : IntType := ⟨64, false⟩

/-- The extended signed 128-bit type (`__int128`). -/
def int128_t : IntType := ⟨128, true⟩

/-- The extended unsigned 128-bit type (`unsigned __int128`). -/
def uint128_t : IntType := ⟨128, false⟩

/-- The integral types the library instantiates its templates at. -/
def supported_types : List IntType :=
  [int8_t, uint8_t, int16_t, uint16_t, int32_t, uint32_t,
   int64_t, uint64_t, int128_t, uint128_t]

/-- The largest exponent `e` such that `2 ^ e` is representable in `t`. -/
def max_exponent (t : IntType) : Nat :=
  if t.signed = true then t.bits - 2 else t.bits - 1

/-- Fuel-indexed form of the square-and-multiply loop (structural
recursion so that the kernel can evaluate it; `powLoop` supplies enough
fuel, and `powLoopF_congr` shows the fuel does not matter). -/
def powLoopF (t : IntType) : Nat → Int → Int → Int → Int
  | 0, acc, _, _ => acc
  | f + 1, acc, base, e =>
    if 0 < e then
      powLoopF t f (if e % 2 = 1 then t.mul acc base else acc) (t.mul base base) (Int.fdiv e 2)
    else acc

/-- The square-and-multiply loop shared verbatim by `int_power_basic`,
`int_power_signed_impl`, `int_power_unsigned_impl` and the large-type
optimizations:

`while (exp > 0) { if (exp & 1) result *= base; base *= base; exp >>= 1; }`

`acc` is the running result, `base` the running squared base, `e` the
remaining exponent (the loop halves `e`, so `e.toNat + 1` iterations always
suffice). -/
def powLoop (t : IntType) (acc base e : Int) : Int :=
  powLoopF t (e.toNat + 1) acc base e

theorem int_fdiv_two_nonneg {e : Int} (h : 0 < e) : Int.fdiv e 2 = e / 2 := by
  rw [Int.fdiv_eq_tdiv (by omega) (by norm_num), Int.tdiv_eq_ediv (by omega) (by norm_num)]

theorem powLoopF_congr (t : IntType) :
    ∀ (f : Nat) (e : Int) (g : Nat) (acc base : Int), e.toNat < f → e.toNat < g →
      powLoopF t f acc base e = powLoopF t g acc base e := by
  intro f
  induction f with
  | zero => omega
  | succ f ih =>
    intro e g acc base hf hg
    match g, hg with
    | g + 1, hg =>
      rw [powLoopF, powLoopF]
      split
      · rename_i hpos
        have hlt : (Int.fdiv e 2).toNat < e.toNat := by
          rw [int_fdiv_two_nonneg hpos]; omega
        exact ih _ _ _ _ (by omega) (by omega)
      · rfl

theorem powLoop_eq (t : IntType) (acc base e : Int) :
    powLoop t acc base e =
      if 0 < e then
        powLoop t (if e % 2 = 1 then t.mul acc base else acc) (t.mul base base) (Int.fdiv e 2)
      else acc := by
  unfold powLoop
  rw [powLoopF]
  split
  · rename_i hpos
    have hlt : (Int.fdiv e 2).toNat < e.toNat := by
      rw [int_fdiv_two_nonneg hpos]; omega
    exact powLoopF_congr t _ _ _ _ _ (by omega) (by omega)
  · rfl

theorem powLoop_nonpos (t : IntType) (acc base : Int) {e : Int} (he : e ≤ 0) :
    powLoop t acc base e = acc := by
  rw [powLoop_eq, if_neg (by omega)]

namespace IntType

theorem wrap_emod (t : IntType) (x : Int) : t.wrap x % t.modulus = x % t.modulus := by
  unfold wrap
  dsimp only
  split
  · simp [Int.sub_emod, Int.emod_emod_of_dvd]
  · exact Int.emod_emod_of_dvd x dvd_rfl

theorem wrap_modEq (t : IntType) (x : Int) : Int.ModEq t.modulus (t.wrap x) x :=
  t.wrap_emod x

theorem wrap_congr (t : IntType) {a b : Int} (h : Int.ModEq t.modulus a b) :
    t.wrap a = t.wrap b := by
  unfold wrap
  rw [show a % t.modulus = b % t.modulus from h]

theorem wrap_wrap (t : IntType) (x : Int) : t.wrap (t.wrap x) = t.wrap x :=
  t.wrap_congr (t.wrap_modEq x)

theorem wrap_mul_wrap (t : IntType) (a b : Int) :
    t.wrap (t.wrap a * t.wrap b) = t.wrap (a * b) :=
  t.wrap_congr ((t.wrap_modEq a).mul (t.wrap_modEq b))

theorem wrap_pow_wrap (t : IntType) (z : Int) (k : Nat) :
    t.wrap (t.wrap z ^ k) = t.wrap (z ^ k) :=
  t.wrap_congr ((t.wrap_modEq z).pow k)

theorem wrap_one (t : IntType) (h : 2 ≤ t.bits) : t.wrap 1 = 1 := by
  unfold wrap
  have h1 : (1 : Int) % t.modulus = 1 := by
    apply Int.emod_eq_of_lt (by norm_num)
    have : (2 : Int) ^ 1 ≤ 2 ^ t.bits := pow_le_pow_right₀ (by norm_num) (by omega)
    simpa [modulus] using by linarith
  dsimp only
  rw [h1, if_neg]
  rintro ⟨-, hle⟩
  have : (2 : Int) ^ 1 ≤ 2 ^ (t.bits - 1) := pow_le_pow_right₀ (by norm_num) (by omega)
  simp at this
  omega

end IntType

/-- `powLoop` computes the wrapped power: if the accumulator is already a
machine value of `t`, the loop returns `acc * base ^ e` wrapped into `t`. -/
theorem powLoop_spec (t : IntType) :
    ∀ (n : Nat) (e : Int), e.toNat = n → ∀ (acc base : Int), t.wrap acc = acc →
      powLoop t acc base e = t.wrap (acc * base ^ n) := by
  intro n
  induction n using Nat.strong_induction_on with
  | _ n ih =>
    intro e he acc base hacc
    rw [powLoop_eq]
    split
    · rename_i hpos
      have htn : (Int.fdiv e 2).toNat = n / 2 := by rw [int_fdiv_two_nonneg hpos]; omega
      have hacc2 : t.wrap (if e % 2 = 1 then t.mul acc base else acc) =
          (if e % 2 = 1 then t.mul acc base else acc) := by
        split
        · exact t.wrap_wrap _
        · exact hacc
      rw [ih (n / 2) (by omega) _ htn _ _ hacc2]
      apply t.wrap_congr
      have hb : Int.ModEq t.modulus ((t.mul base base) ^ (n / 2)) ((base * base) ^ (n / 2)) :=
        (t.wrap_modEq (base * base)).pow (n / 2)
      have ha : Int.ModEq t.modulus (if e % 2 = 1 then t.mul acc base else acc)
          (acc * base ^ (n % 2)) := by
        by_cases hp : e % 2 = 1
        · rw [if_pos hp, show n % 2 = 1 by omega]
          simpa [pow_one] using t.wrap_modEq (acc * base)
        · rw [if_neg hp, show n % 2 = 0 by omega]
          simp
      calc (if e % 2 = 1 then t.mul acc base else acc) * (t.mul base base) ^ (n / 2)
          ≡ (acc * base ^ (n % 2)) * (base * base) ^ (n / 2) [ZMOD t.modulus] := ha.mul hb
        _ = acc * base ^ n := by
            rw [← pow_two, ← pow_mul, mul_assoc, ← pow_add]
            rw [show n % 2 + 2 * (n / 2) = n by omega]
    · rename_i hneg
      have hn : n = 0 := by omega
      subst hn
      simp [hacc]

/-! ## basic_power_functions.hpp -/

/-- `int_power_basic` (basic_power_functions.hpp, lines 40-67): binary
exponentiation with four special cases tested first, in source order. -/
def int_power_basic (t : IntType) (base exp : Int) : Int :=
  if exp = 0 then 1
  else if exp = 1 then base
  else if base = 0 then 0
  else if base = 1 then 1
  else powLoop t 1 base exp

/-- `int_power_safe` (basic_power_functions.hpp, lines 83-106): heuristic
overflow pre-check.  `numeric_limits<T>::is_specialized` holds for every
supported type, so the limits block is always entered. -/
def int_power_safe (t : IntType) (base exp : Int) : Bool :=
  if exp = 0 then true
  else if base = 0 ∨ base = 1 then true
  else if base = -1 then true
  else if 0 < base ∧ Int.tdiv t.maxv base < base then false
  else if base < 0 ∧ base < Int.tdiv t.minv (-base) then false
  else true

/-- `int_power_checked` (basic_power_functions.hpp, lines 118-125): throws
`std::overflow_error` (modelled as `none`) when `int_power_safe` is false,
otherwise returns `int_power_basic`. -/
def int_power_checked (t : IntType) (base exp : Int) : Option Int :=
  if int_power_safe t base exp = true then some (int_power_basic t base exp) else none

/-! ## trait_based_specializations.hpp -/

/-- `int_power_signed_impl` (trait_based_specializations.hpp, lines 41-79). -/
def int_power_signed_impl (t : IntType) (base exp : Int) : Int :=
  if exp = 0 then 1
  else if base = 0 then 0
  else if base = 1 then 1
  else if base = -1 then (if exp % 2 = 1 then -1 else 1)
  else if base < 0 then
    let r := powLoop t 1 (t.wrap (-base)) exp
    if exp % 2 = 1 then t.wrap (-r) else r
  else int_power_basic t base exp

/-- `int_power_unsigned_impl` (trait_based_specializations.hpp, lines 94-121). -/
def int_power_unsigned_impl (t : IntType) (base exp : Int) : Int :=
  if exp = 0 then 1
  else if exp = 1 then base
  else if base = 0 then 0
  else if base = 1 then 1
  else powLoop t 1 base exp

/-- `int_power_dispatch` (trait_based_specializations.hpp, lines 138-148):
compile-time selection between the signed and unsigned implementations. -/
def int_power_dispatch (t : IntType) (base exp : Int) : Int :=
  if t.signed = true then int_power_signed_impl t base exp
  else int_power_unsigned_impl t base exp

/-! ## lookup_tables/power_of_2_lookup_tables.hpp -/

/-- `power_of_2_int8` (lookup table, lines 45-53): 2^0 .. 2^6. -/
def power_of_2_int8 : List Int := [1, 2, 4, 8, 16, 32, 64]

/-- `power_of_2_uint8` (lookup table, lines 60-69): 2^0 .. 2^7. -/
def power_of_2_uint8 : List Int := [1, 2, 4, 8, 16, 32, 64, 128]

/-- `power_of_2_int16` (lookup table, lines 76-92): 2^0 .. 2^14. -/
def power_of_2_int16 : List Int :=
  [1, 2, 4, 8, 16, 32, 64, 128, 256, 512, 1024, 2048, 4096, 8192, 16384]

/-- `power_of_2_uint16` (lookup table, lines 99-116): 2^0 .. 2^15. -/
def power_of_2_uint16 : List Int :=
  [1, 2, 4, 8, 16, 32, 64, 128, 256, 512, 1024, 2048, 4096, 8192, 16384, 32768]

/-- `power_of_2_int32` (lookup table, lines 124-156): 2^0 .. 2^30. -/
def power_of_2_int32 : List Int :=
  [1, 2, 4, 8, 16, 32, 64, 128, 256, 512, 1024, 2048, 4096, 8192, 16384,
   32768, 65536, 131072, 262144, 524288, 1048576, 2097152, 4194304, 8388608,
   16777216, 33554432, 67108864, 134217728, 268435456, 536870912, 1073741824]

/-- `power_of_2_uint32` (lookup table, lines 164-197): 2^0 .. 2^31. -/
def power_of_2_uint32 : List Int :=
  [1, 2, 4, 8, 16, 32, 64, 128, 256, 512, 1024, 2048, 4096, 8192, 16384,
   32768, 65536, 131072, 262144, 524288, 1048576, 2097152, 4194304, 8388608,
   16777216, 33554432, 67108864, 134217728, 268435456, 536870912, 1073741824,
   2147483648]

/-- `get_power_of_2_int8` (lines 233-239): bounds-checked table accessor;
`none` models the thrown `std::out_of_range`. -/
def get_power_of_2_int8 (exp : Int) : Option Int :=
  if exp < 0 ∨ (power_of_2_int8.length : Int) ≤ exp then none
  else some (power_of_2_int8.getD exp.toNat 0)

/-- `get_power_of_2_uint8` (lines 264-270). -/
def get_power_of_2_uint8 (exp : Int) : Option Int :=
  if exp < 0 ∨ (power_of_2_uint8.length : Int) ≤ exp then none
  else some (power_of_2_uint8.getD exp.toNat 0)

/-- `get_power_of_2_int16` (lines 278-284). -/
def get_power_of_2_int16 (exp : Int) : Option Int :=
  if exp < 0 ∨ (power_of_2_int16.length : Int) ≤ exp then none
  else some (power_of_2_int16.getD exp.toNat 0)

/-- `get_power_of_2_uint16` (lines 292-298). -/
def get_power_of_2_uint16 (exp : Int) : Option Int :=
  if exp < 0 ∨ (power_of_2_uint16.length : Int) ≤ exp then none
  else some (power_of_2_uint16.getD exp.toNat 0)

/-- `get_power_of_2_int32` (lines 306-312). -/
def get_power_of_2_int32 (exp : Int) : Option Int :=
  if exp < 0 ∨ (power_of_2_int32.length : Int) ≤ exp then none
  else some (power_of_2_int32.getD exp.toNat 0)

/-- `get_power_of_2_uint32` (lines 320-326). -/
def get_power_of_2_uint32 (exp : Int) : Option Int :=
  if exp < 0 ∨ (power_of_2_uint32.length : Int) ≤ exp then none
  else some (power_of_2_uint32.getD exp.toNat 0)

/-- `get_power_of_2_from_table` (lines 341-356): compile-time dispatch over
the four narrow types; other instantiations are a compile error
(`static_assert`), modelled as `none`. -/
def get_power_of_2_from_table (t : IntType) (exp : Int) : Option Int :=
  if t = int8_t then get_power_of_2_int8 exp
  else if t = uint8_t then get_power_of_2_uint8 exp
  else if t = int16_t then get_power_of_2_int16 exp
  else if t = uint16_t then get_power_of_2_uint16 exp
  else none

/-- `is_valid_power_of_2_exponent` (lines 368-380). -/
def is_valid_power_of_2_exponent (t : IntType) (exp : Int) : Bool :=
  if t = int8_t then decide (0 ≤ exp ∧ exp ≤ 6)
  else if t = uint8_t then decide (0 ≤ exp ∧ exp ≤ 7)
  else if t = int16_t then decide (0 ≤ exp ∧ exp ≤ 14)
  else if t = uint16_t then decide (0 ≤ exp ∧ exp ≤ 15)
  else false

/-- `get_max_power_of_2_exponent` (lines 387-402); non-narrow
instantiations are a compile error, modelled by the source's own `-1`. -/
def get_max_power_of_2_exponent (t : IntType) : Int :=
  if t = int8_t then 6
  else if t = uint8_t then 7
  else if t = int16_t then 14
  else if t = uint16_t then 15
  else -1

/-! ## power_of_2_optimizations.hpp -/

/-- `int_power_2_large_optimized` (power_of_2_optimizations.hpp, lines
40-89): power of two for types wider than 32 bits.  For exponents that are
not directly shiftable it decomposes `exp` by `max_32bit_exp` (30 for
signed, 31 for unsigned types) and runs binary exponentiation on the
quotient. -/
def int_power_2_large_optimized (t : IntType) (exp : Int) : Int :=
  if exp = 0 then 1
  else if exp = 1 then 2
  else if exp < 64 then t.shl 1 exp
  else
    let max_32bit_exp : Int := if t.signed = true then 30 else 31
    if exp ≤ max_32bit_exp then t.shl 1 exp
    else
      let quotient := Int.tdiv exp max_32bit_exp
      let remainder := Int.tmod exp max_32bit_exp
      let result := powLoop t 1 (t.shl 1 max_32bit_exp) quotient
      if 0 < remainder then t.mul result (t.shl 1 remainder) else result

/-- `int_power_2` (power_of_2_optimizations.hpp, lines 105-166): the
power-of-two fast path.  Narrow types (8/16-bit) use the constexpr tables
when the exponent is in range and fall back to `int_power_dispatch`
otherwise; 32/64/128-bit types use a direct shift when it cannot overflow;
wider-than-32-bit types otherwise use `int_power_2_large_optimized`; the
final fallback is `int_power_dispatch`.  `none` models an escaping
exception (never reached: the table access is guarded). -/
def int_power_2 (t : IntType) (exp : Int) : Option Int :=
  if exp = 0 then some 1
  else if t.bits = 8 ∨ t.bits = 16 then
    if is_valid_power_of_2_exponent t exp = true then get_power_of_2_from_table t exp
    else some (int_power_dispatch t 2 exp)
  else if t.signed = true ∧
      ((t.bits = 32 ∧ exp < 31) ∨ (t.bits = 64 ∧ exp < 63) ∨ (t.bits = 128 ∧ exp < 127)) then
    some (t.shl 1 exp)
  else if t.signed = false ∧
      ((t.bits = 32 ∧ exp < 32) ∨ (t.bits = 64 ∧ exp < 64) ∨ (t.bits = 128 ∧ exp < 128)) then
    some (t.shl 1 exp)
  else if 32 < t.bits then some (int_power_2_large_optimized t exp)
  else some (int_power_dispatch t 2 exp)

/-- `is_power_of_2` (power_of_2_optimizations.hpp, lines 208-214): the
bit-trick predicate `base > 0 && (base & (base - 1)) == 0`.  The bitwise
AND of the two non-negative values is computed on `Nat`; the result does
not depend on the instantiating type `T`. -/
def is_power_of_2 (base : Int) : Bool :=
  if base ≤ 0 then false
  else decide (base.toNat &&& (base.toNat - 1) = 0)

/-- Fuel-indexed form of the counting loop of `find_power_of_2_exponent`
(structural recursion so that the kernel can evaluate it). -/
def findPow2LoopF : Nat → Nat → Nat → Nat
  | 0, _, e => e
  | f + 1, temp, e => if temp ≤ 1 then e else findPow2LoopF f (temp / 2) (e + 1)

/-- The counting loop of `find_power_of_2_exponent`:
`while (temp > 1) { temp >>= 1; ++exp; }` (the loop halves `temp`, so
`temp + 1` iterations always suffice). -/
def findPow2Loop (temp e : Nat) : Nat :=
  findPow2LoopF (temp + 1) temp e

theorem findPow2LoopF_congr :
    ∀ (f temp g e : Nat), temp < f → temp < g →
      findPow2LoopF f temp e = findPow2LoopF g temp e := by
  intro f
  induction f with
  | zero => omega
  | succ f ih =>
    intro temp g e hf hg
    match g, hg with
    | g + 1, hg =>
      rw [findPow2LoopF, findPow2LoopF]
      split
      · rfl
      · rename_i hgt
        exact ih _ _ _ (by omega) (by omega)

theorem findPow2Loop_eq (temp e : Nat) :
    findPow2Loop temp e = if temp ≤ 1 then e else findPow2Loop (temp / 2) (e + 1) := by
  unfold findPow2Loop
  rw [findPow2LoopF]
  split
  · rfl
  · rename_i hgt
    exact findPow2LoopF_congr _ _ _ _ (by omega) (by omega)

/-- `find_power_of_2_exponent` (power_of_2_optimizations.hpp, lines
222-235): the exponent such that `2 ^ exp = base`, or `-1` if `base` is
not a power of two. -/
def find_power_of_2_exponent (base : Int) : Int :=
  if is_power_of_2 base = true then (findPow2Loop base.toNat 0 : Int) else -1

/-- `int_power_large_optimized` (power_of_2_optimizations.hpp, lines
337-398): general-base chunked exponentiation for types wider than 64
bits.  When the base fits in `uint32_t`, the 32-chunk power is computed in
`uint32_t` (wrapping there) and cast back to `T`. -/
def int_power_large_optimized (t : IntType) (base exp : Int) : Int :=
  if exp = 0 then 1
  else if exp = 1 then base
  else if base = 0 then 0
  else if base = 1 then 1
  else if exp ≤ 32 then int_power_dispatch t base exp
  else
    let base_chunk : Int :=
      if base ≤ 4294967295 then
        t.wrap (int_power_dispatch uint32_t (uint32_t.wrap base) 32)
      else int_power_dispatch t base 32
    let quotient := Int.tdiv exp 32
    let remainder := Int.tmod exp 32
    let result := powLoop t 1 base_chunk quotient
    if 0 < remainder then t.mul result (int_power_dispatch t base remainder) else result

/-- `int_power_smart` (power_of_2_optimizations.hpp, lines 263-313):
trivial cases, then base-2 fast path, then general power-of-two base
rewriting `base ^ exp` as `2 ^ (base_exp * exp)`, then the large-type
optimization, then trait dispatch.  The nested fall-through of the source
is flattened into an if-chain with conjoined guards. -/
def int_power_smart (t : IntType) (base exp : Int) : Option Int :=
  if exp = 0 then some 1
  else if exp = 1 then some base
  else if base = 0 then some 0
  else if base = 1 then some 1
  else if (t.bits = 8 ∨ t.bits = 16) ∧ base = 2 then int_power_2 t exp
  else if base = 2 then int_power_2 t exp
  else if is_power_of_2 base = true ∧ 0 < find_power_of_2_exponent base then
    int_power_2 t (find_power_of_2_exponent base * exp)
  else if 64 < t.bits then some (int_power_large_optimized t base exp)
  else some (int_power_dispatch t base exp)

/-! ## Claims -/

/-- C2: for every integral type `T` and all `base`, `exp` of type `T`,
`int_power_checked(base, exp)` raises an overflow error (returns `none`)
iff `int_power_safe(base, exp)` is false, and when `int_power_safe` is
true it returns `int_power_basic(base, exp)` without failing. -/
theorem c2_checked_none_iff_not_safe :
    ∀ (t : IntType) (base exp : Int),
      (int_power_checked t base exp = none ↔ int_power_safe t base exp = false) ∧
      (int_power_safe t base exp = true →
        int_power_checked t base exp = some (int_power_basic t base exp)) := by
  intro t base exp
  cases h : int_power_safe t base exp with
  | false => simp [int_power_checked, h]
  | true => simp [int_power_checked, h]

/-- Witness for C2 at `T = int32_t`, `base = 2`, `exp = 10`. -/
theorem c2_checked_none_iff_not_safe_witness :
    int_power_checked int32_t 2 10 = some (int_power_basic int32_t 2 10) :=
  (c2_checked_none_iff_not_safe int32_t 2 10).2 (by decide)

/-- C5: each of the six constexpr lookup tables holds exactly
`2^0 .. 2^k_max(T)` (with `k_max` = 6, 7, 14, 15, 30, 31 respectively),
every entry fits in `T`, and `k_max(T)` is the largest exponent whose
power of two is representable in `T` (`2^k_max ≤ max(T) < 2^(k_max+1)`). -/
theorem c5_lookup_tables_correct :
    (power_of_2_int8 = (List.range 7).map (fun i => (2 : Int) ^ i) ∧
     power_of_2_int8.all (fun v => decide (int8_t.minv ≤ v ∧ v ≤ int8_t.maxv)) = true ∧
     2 ^ 6 ≤ int8_t.maxv ∧ int8_t.maxv < 2 ^ 7 ∧
     get_max_power_of_2_exponent int8_t = 6) ∧
    (power_of_2_uint8 = (List.range 8).map (fun i => (2 : Int) ^ i) ∧
     power_of_2_uint8.all (fun v => decide (uint8_t.minv ≤ v ∧ v ≤ uint8_t.maxv)) = true ∧
     2 ^ 7 ≤ uint8_t.maxv ∧ uint8_t.maxv < 2 ^ 8 ∧
     get_max_power_of_2_exponent uint8_t = 7) ∧
    (power_of_2_int16 = (List.range 15).map (fun i => (2 : Int) ^ i) ∧
     power_of_2_int16.all (fun v => decide (int16_t.minv ≤ v ∧ v ≤ int16_t.maxv)) = true ∧
     2 ^ 14 ≤ int16_t.maxv ∧ int16_t.maxv < 2 ^ 15 ∧
     get_max_power_of_2_exponent int16_t = 14) ∧
    (power_of_2_uint16 = (List.range 16).map (fun i => (2 : Int) ^ i) ∧
     power_of_2_uint16.all (fun v => decide (uint16_t.minv ≤ v ∧ v ≤ uint16_t.maxv)) = true ∧
     2 ^ 15 ≤ uint16_t.maxv ∧ uint16_t.maxv < 2 ^ 16 ∧
     get_max_power_of_2_exponent uint16_t = 15) ∧
    (power_of_2_int32 = (List.range 31).map (fun i => (2 : Int) ^ i) ∧
     power_of_2_int32.all (fun v => decide (int32_t.minv ≤ v ∧ v ≤ int32_t.maxv)) = true ∧
     2 ^ 30 ≤ int32_t.maxv ∧ int32_t.maxv < 2 ^ 31) ∧
    (power_of_2_uint32 = (List.range 32).map (fun i => (2 : Int) ^ i) ∧
     power_of_2_uint32.all (fun v => decide (uint32_t.minv ≤ v ∧ v ≤ uint32_t.maxv)) = true ∧
     2 ^ 31 ≤ uint32_t.maxv ∧ uint32_t.maxv < 2 ^ 32) := by
  decide

/-- C6: for every signed integral type and every non-negative exponent,
`int_power_dispatch(-1, e)` is `1` for even `e` and `-1` for odd `e`; the
source answers from the `base == -1` special case, before the general
square-and-multiply loop. -/
theorem c6_dispatch_minus_one_alternation :
    ∀ (t : IntType) (e : Int), t.signed = true → 0 ≤ e →
      int_power_dispatch t (-1) e = if e % 2 = 0 then 1 else -1 := by
  intro t e hs he
  rw [int_power_dispatch, if_pos hs]
  unfold int_power_signed_impl
  by_cases h0 : e = 0
  · subst h0; norm_num
  · rw [if_neg h0]
    norm_num
    have h2 := Int.emod_two_eq e
    split_ifs <;> omega

/-- Witness for C6 at `T = int64_t`, `e = 5`. -/
theorem c6_dispatch_minus_one_alternation_witness :
    int_power_dispatch int64_t (-1) 5 = -1 := by
  have h := c6_dispatch_minus_one_alternation int64_t 5 (by decide) (by decide)
  simpa using h

/-- C7: `int_power_basic(base, 0) = 1` (including `0^0 = 1`),
`int_power_basic(base, 1) = base`, `int_power_basic(0, e) = 0` for
`e ≥ 1`, and `int_power_basic(1, e) = 1`: the four special cases run in
source order before the general loop, `exp == 0` first (hence
`0^0 = 1`). -/
theorem c7_basic_special_cases :
    ∀ (t : IntType) (base : Int),
      int_power_basic t base 0 = 1 ∧
      int_power_basic t base 1 = base ∧
      (∀ e : Int, 1 ≤ e → int_power_basic t 0 e = 0) ∧
      (∀ e : Int, int_power_basic t 1 e = 1) ∧
      int_power_basic t 0 0 = 1 := by
  intro t base
  refine ⟨by simp [int_power_basic], by simp [int_power_basic], ?_, ?_, by simp [int_power_basic]⟩
  · intro e he
    by_cases h1 : e = 1
    · subst h1; simp [int_power_basic]
    · have h0 : e ≠ 0 := by omega
      simp [int_power_basic, h0, h1]
  · intro e
    by_cases h0 : e = 0
    · subst h0; simp [int_power_basic]
    · by_cases h1 : e = 1
      · subst h1; simp [int_power_basic]
      · simp [int_power_basic, h0, h1]

/-- Witness for C7 at `T = int32_t`, `base = 7`, `e = 3`. -/
theorem c7_basic_special_cases_witness :
    int_power_basic int32_t 7 1 = 7 ∧ int_power_basic int32_t 0 3 = 0 :=
  ⟨(c7_basic_special_cases int32_t 7).2.1,
   (c7_basic_special_cases int32_t 7).2.2.1 3 (by decide)⟩

/-- C9: `int_power_safe` ignores the exponent once it is nonzero — the
verdict is a function of the base alone; in particular base 2 is reported
safe for arbitrarily large exponents (e.g. in `int32_t`). -/
theorem c9_safe_independent_of_exponent :
    (∀ (t : IntType) (base e1 e2 : Int), e1 ≠ 0 → e2 ≠ 0 →
       int_power_safe t base e1 = int_power_safe t base e2) ∧
    (∀ e : Int, e ≠ 0 → int_power_safe int32_t 2 e = true) ∧
    int_power_safe int32_t 2 1000000 = true := by
  refine ⟨?_, ?_, by decide⟩
  · intro t base e1 e2 h1 h2
    rw [int_power_safe, int_power_safe, if_neg h1, if_neg h2]
  · intro e he
    rw [int_power_safe, if_neg he]
    decide

/-- Witness for C9 at `T = uint8_t`, `base = 7`, `e1 = 2`, `e2 = 900`. -/
theorem c9_safe_independent_of_exponent_witness :
    int_power_safe uint8_t 7 2 = int_power_safe uint8_t 7 900 :=
  c9_safe_independent_of_exponent.1 uint8_t 7 2 900 (by decide) (by decide)

/-- C10: for every base and every negative exponent, `int_power_basic` is
total and returns `0` when `base = 0` and `1` otherwise (the loop guard
`current_exp > 0` fails immediately, leaving the initial result 1). -/
theorem c10_negative_exponent_total :
    ∀ (t : IntType) (base e : Int), e < 0 →
      int_power_basic t base e = if base = 0 then 0 else 1 := by
  intro t base e he
  have h0 : e ≠ 0 := by omega
  have h1 : e ≠ 1 := by omega
  by_cases hb0 : base = 0
  · simp [int_power_basic, h0, h1, hb0]
  · by_cases hb1 : base = 1
    · simp [int_power_basic, h0, h1, hb0, hb1]
    · simp [int_power_basic, h0, h1, hb0, hb1, powLoop_nonpos t 1 base (le_of_lt he)]

/-- Witness for C10 at `T = int16_t`, `base = 5`, `e = -3`. -/
theorem c10_negative_exponent_total_witness :
    int_power_basic int16_t 5 (-3) = 1 := by
  have h := c10_negative_exponent_total int16_t 5 (-3) (by decide)
  simpa using h

/-- C1: for every supported integral type and every exponent `e` in
`[0, max_exponent(T)]`, the power-of-two fast path, the trait dispatcher
at base 2, and a left shift of one agree:
`int_power_2<T>(e) == int_power_dispatch<T>(2, e) == T(1) << e`. -/
theorem c1_power_of_two_paths_agree :
    ∀ t ∈ supported_types, ∀ n : Nat, n ≤ max_exponent t →
      int_power_2 t (n : Int) = some (int_power_dispatch t 2 (n : Int)) ∧
      int_power_dispatch t 2 (n : Int) = t.shl 1 (n : Int) := by
  decide

/-- Witness for C1 at `T = int32_t`, `e = 10`. -/
theorem c1_power_of_two_paths_agree_witness :
    int_power_2 int32_t 10 = some (int_power_dispatch int32_t 2 10) ∧
    int_power_dispatch int32_t 2 10 = int32_t.shl 1 10 := by
  have h := c1_power_of_two_paths_agree int32_t (by decide) 10 (by decide)
  simpa using h

/-- C3: for every narrow type and every exponent `e`, `int_power_2`
returns the table entry when `is_valid_power_of_2_exponent` holds and
otherwise returns `int_power_dispatch(2, e)` — a silently wrapped value —
never an error (`none`) and never a rejection. -/
theorem c3_narrow_table_or_silent_fallback :
    ∀ t ∈ [int8_t, uint8_t, int16_t, uint16_t], ∀ e : Int,
      (is_valid_power_of_2_exponent t e = true →
        int_power_2 t e = get_power_of_2_from_table t e) ∧
      (is_valid_power_of_2_exponent t e = false →
        int_power_2 t e = some (int_power_dispatch t 2 e)) := by
  intro t ht e
  fin_cases ht <;>
  · refine ⟨fun hv => ?_, fun hv => ?_⟩
    · by_cases h0 : e = 0
      · subst h0; decide
      · unfold int_power_2
        rw [if_neg h0, if_pos (by decide), if_pos hv]
    · have h0 : e ≠ 0 := by
        intro h
        subst h
        revert hv
        decide
      unfold int_power_2
      rw [if_neg h0, if_pos (by decide), if_neg (by simp [hv])]

/-- Witness for C3 at `T = uint8_t`: exponent 5 is in table range,
exponent 9 falls back to dispatch (which wraps `2^9` to 0). -/
theorem c3_narrow_table_or_silent_fallback_witness :
    int_power_2 uint8_t 5 = get_power_of_2_from_table uint8_t 5 ∧
    int_power_2 uint8_t 9 = some (int_power_dispatch uint8_t 2 9) :=
  ⟨(c3_narrow_table_or_silent_fallback uint8_t (by decide) 5).1 (by decide),
   (c3_narrow_table_or_silent_fallback uint8_t (by decide) 9).2 (by decide)⟩

theorem findPow2Loop_ge : ∀ (temp e : Nat), 2 ≤ temp → e + 1 ≤ findPow2Loop temp e := by
  intro temp
  induction temp using Nat.strong_induction_on with
  | _ temp ih =>
    intro e h
    rw [findPow2Loop_eq, if_neg (by omega)]
    by_cases h2 : 2 ≤ temp / 2
    · have := ih (temp / 2) (by omega) (e + 1) h2
      omega
    · rw [findPow2Loop_eq, if_pos (by omega)]

theorem find_power_of_2_exponent_pos {base : Int} (hb : 2 < base)
    (hp : is_power_of_2 base = true) : 0 < find_power_of_2_exponent base := by
  unfold find_power_of_2_exponent
  rw [if_pos hp]
  have h2 : 2 ≤ base.toNat := by omega
  have := findPow2Loop_ge base.toNat 0 h2
  omega

/-- C8: for every base greater than 2 that is a power of two
(`base & (base-1) == 0`) and every exponent at least 2, `int_power_smart`
rewrites `base ^ exp` as `2 ^ (base_exp * exp)` and routes through the
power-of-two fast path; in particular `int_power_smart(4, 5) = 1024`. -/
theorem c8_smart_rewrites_power_of_two_base :
    (∀ (t : IntType) (base e : Int), 2 < base → is_power_of_2 base = true → 2 ≤ e →
       int_power_smart t base e = int_power_2 t (find_power_of_2_exponent base * e)) ∧
    int_power_smart int32_t 4 5 = some 1024 := by
  constructor
  · intro t base e hb hp he
    have hfind := find_power_of_2_exponent_pos hb hp
    unfold int_power_smart
    rw [if_neg (by omega), if_neg (by omega), if_neg (by omega), if_neg (by omega),
        if_neg (fun h => absurd h.2 (by omega)), if_neg (by omega), if_pos ⟨hp, hfind⟩]
  · decide

/-- Witness for C8 at `T = uint64_t`, `base = 8`, `e = 3`. -/
theorem c8_smart_rewrites_power_of_two_base_witness :
    int_power_smart uint64_t 8 3 = int_power_2 uint64_t (find_power_of_2_exponent 8 * 3) :=
  c8_smart_rewrites_power_of_two_base.1 uint64_t 8 3 (by decide) (by decide) (by decide)

theorem chunk_pow (t : IntType) (m n : Nat) (h2 : 2 ≤ t.bits) :
    (if 0 < Int.tmod (n : Int) (m : Int) then
       t.mul (powLoop t 1 (t.shl 1 (m : Int)) (Int.tdiv (n : Int) (m : Int)))
         (t.shl 1 (Int.tmod (n : Int) (m : Int)))
     else powLoop t 1 (t.shl 1 (m : Int)) (Int.tdiv (n : Int) (m : Int)))
    = t.wrap (2 ^ n) := by
  have hq : Int.tdiv (n : Int) (m : Int) = ((n / m : Nat) : Int) := rfl
  have hr : Int.tmod (n : Int) (m : Int) = ((n % m : Nat) : Int) := rfl
  have hshl : ∀ k : Nat, t.shl 1 (k : Int) = t.wrap (2 ^ k) := by
    intro k
    simp [IntType.shl]
  have hloop : powLoop t 1 (t.shl 1 (m : Int)) (Int.tdiv (n : Int) (m : Int))
      = t.wrap (2 ^ (m * (n / m))) := by
    rw [hq, hshl m]
    have hl := powLoop_spec t (n / m) ((n / m : Nat) : Int) (Int.toNat_ofNat _) 1
      (t.wrap (2 ^ m)) (t.wrap_one h2)
    rw [hl, one_mul, t.wrap_pow_wrap, ← pow_mul]
  rw [hr, hloop]
  by_cases hrem : 0 < n % m
  · rw [if_pos (by exact_mod_cast hrem)]
    rw [hshl (n % m), IntType.mul, t.wrap_mul_wrap, ← pow_add, Nat.div_add_mod]
  · rw [if_neg (by exact_mod_cast hrem)]
    have hz : n % m = 0 := by omega
    have hdm : m * (n / m) = n := by
      rw [mul_comm]
      exact Nat.div_mul_cancel (Nat.dvd_of_mod_eq_zero hz)
    rw [hdm]

theorem int_power_2_large_optimized_eq (t : IntType) (n : Nat)
    (hb : 32 < t.bits) (hn : 64 ≤ n) :
    int_power_2_large_optimized t (n : Int) = t.wrap (2 ^ n) := by
  unfold int_power_2_large_optimized
  rw [if_neg (by omega), if_neg (by omega), if_neg (by omega)]
  dsimp only
  cases hs : t.signed with
  | true =>
    simp only [eq_self_iff_true, if_true]
    rw [if_neg (by omega)]
    have h30 : ((30 : Nat) : Int) = (30 : Int) := by norm_num
    rw [← h30]
    exact chunk_pow t 30 n (by omega)
  | false =>
    simp only [Bool.false_eq_true, if_false]
    rw [if_neg (by omega)]
    have h31 : ((31 : Nat) : Int) = (31 : Int) := by norm_num
    rw [← h31]
    exact chunk_pow t 31 n (by omega)

/-- C4: for every type wider than 32 bits and every exponent beyond the
directly-shiftable range (`exp ≥ 64`), `int_power_2_large_optimized`
returns the value of the decomposition `exp = q*32 + r` as
`wrap((2^32)^q * 2^r)`, which equals `2^exp` under the type's wrapping
arithmetic.  (Internally the source decomposes by 30 for signed and 31
for unsigned types; the returned value provably coincides with the
32-based decomposition and with `2^exp` wrapped.) -/
theorem c4_large_pow2_decomposition :
    ∀ (t : IntType) (e : Int) (q r : Nat), 32 < t.bits → 64 ≤ e →
      e = 32 * (q : Int) + (r : Int) → r < 32 →
      int_power_2_large_optimized t e = t.wrap (((2 : Int) ^ 32) ^ q * 2 ^ r) ∧
      int_power_2_large_optimized t e = t.wrap (2 ^ e.toNat) := by
  intro t e q r hb he hqr hr
  obtain ⟨n, rfl⟩ : ∃ n : Nat, e = (n : Int) := ⟨e.toNat, by omega⟩
  have hn64 : 64 ≤ n := by omega
  have hmain := int_power_2_large_optimized_eq t n hb hn64
  have htn : ((n : Int)).toNat = n := Int.toNat_ofNat n
  refine ⟨?_, by rw [htn]; exact hmain⟩
  rw [hmain]
  congr 1
  rw [← pow_mul, ← pow_add]
  congr 1
  omega

/-- Witness for C4 at `T = uint128_t`, `exp = 100 = 32*3 + 4`. -/
theorem c4_large_pow2_decomposition_witness :
    int_power_2_large_optimized uint128_t 100 =
      uint128_t.wrap (((2 : Int) ^ 32) ^ 3 * 2 ^ 4) :=
  (c4_large_pow2_decomposition uint128_t 100 3 4 (by decide) (by decide)
    (by norm_num) (by decide)).1
